import Mathlib

/-!
# Verification of the post/subpost content-management and TOC subsystem

Shallow embedding of the blog post-management core of this repository:
the post identity utilities and word-count estimator (`src/lib/blog/utils.ts`),
the consolidated `PostManagerImpl` (`src/lib/blog/manager.ts`), the
table-of-contents builders (the consolidated standalone `getTOCSections`
and the legacy `TOCManager`), and the scroll tracker's region/visibility
computation (`src/lib/blog/scroll.ts`).

The Astro content collection is modelled as an explicit `Store` value: the
`getCollection`/`getEntry` calls become filtering and first-match lookup over
the store's list of posts.  Rendering a post to markdown headings is an
external collaborator of the core, so a post record carries its rendered
headings as a field.  Asynchronous operations in the source are sequential
pure functions here; `getMetadata`'s thrown `Post not found` error becomes
an `Except.error`.
-/

namespace Blog

/-! ## Post identity utilities (`src/lib/blog/utils.ts`, `PostUtils`) -/

/-- `isSubpost(postId)`: `postId.includes('/')`. -/
def isSubpost (postId : String) : Bool :=
  postId.data.contains '/'

/-- `getParentId(subpostId)`: `subpostId.split('/')[0]`, i.e. the characters
before the first `'/'` (the whole string when there is none). -/
def getParentId (subpostId : String) : String :=
  ⟨subpostId.data.takeWhile (fun c => c ≠ '/')⟩

theorem takeWhile_eq_self_of_forall {p : Char → Bool} :
    ∀ {l : List Char}, (∀ c ∈ l, p c = true) → l.takeWhile p = l := by
  intro l
  induction l with
  | nil => intro _; rfl
  | cons c cs ih =>
    intro h
    simp only [List.takeWhile_cons, h c (by simp)]
    simp [ih (fun x hx => h x (by simp [hx]))]

/-- **C10.** `getParentId` is total and, on every id without a separator
(`isSubpost` false), returns the id itself unchanged. -/
theorem getParentId_of_not_isSubpost (id : String) (h : isSubpost id = false) :
    getParentId id = id := by
  unfold isSubpost at h
  unfold getParentId
  have hall : ∀ c ∈ id.data, (fun c => decide (c ≠ '/')) c = true := by
    intro c hc
    simp only [decide_eq_true_eq]
    intro hEq
    subst hEq
    have h' : List.elem '/' id.data = false := h
    rw [List.elem_iff.mpr hc] at h'
    exact Bool.noConfusion h'
  rw [takeWhile_eq_self_of_forall hall]

/-- Witness for C10 at the concrete id `"main-post"`. -/
theorem getParentId_of_not_isSubpost_witness :
    getParentId "main-post" = "main-post" :=
  getParentId_of_not_isSubpost "main-post" (by decide)

/-! ## Word-count estimator (`src/lib/blog/utils.ts`, `calculateWordCountFromHtml`)

The source strips, in order, the global regex matches of
`/<pre[^>]*>.*?<\/pre>/gs`, `/<code[^>]*>.*?<\/code>/g`, `/\$\$.*?\$\$/g`,
`/\$.*?\$/g` and `/<[^>]+>/g` from the HTML, then counts words in the
remainder (via `Intl.Segmenter` when available, else a script-range regex
fallback).  Each global lazy regex is modelled by a left-to-right scan: at a
candidate start the lazy body extends to the nearest closing literal
(newline-blocked for the patterns compiled without the `s` flag), the match
is removed, and scanning resumes after it; a failed candidate advances one
character. -/

/-- Suffix after the first `'>'` (models `[^>]*>` consuming through the first
`'>'`); `none` when no `'>'` occurs. -/
def afterFirstGt : List Char → Option (List Char)
  | [] => none
  | c :: rest => if c = '>' then some rest else afterFirstGt rest

/-- Suffix after the first occurrence of the literal `t` (models a lazy `.*?`
with the `s` flag followed by `t`); `none` when `t` never occurs. -/
def afterFirstOcc (t : List Char) : List Char → Option (List Char)
  | [] => if t.isPrefixOf ([] : List Char) then some [] else none
  | c :: rest =>
    if t.isPrefixOf (c :: rest) then some ((c :: rest).drop t.length)
    else afterFirstOcc t rest

/-- Suffix after the first occurrence of the literal `t`, failing at the first
newline (models a lazy `.*?` without the `s` flag followed by `t`). -/
def afterFirstOccNoNl (t : List Char) : List Char → Option (List Char)
  | [] => if t.isPrefixOf ([] : List Char) then some [] else none
  | c :: rest =>
    if t.isPrefixOf (c :: rest) then some ((c :: rest).drop t.length)
    else if c = '\n' then none
    else afterFirstOccNoNl t rest

theorem afterFirstGt_length_lt :
    ∀ {s r : List Char}, afterFirstGt s = some r → r.length < s.length := by
  intro s
  induction s with
  | nil => intro r h; simp [afterFirstGt] at h
  | cons c rest ih =>
    intro r h
    by_cases hc : c = '>'
    · simp [afterFirstGt, hc] at h
      simp [← h]
    · simp [afterFirstGt, hc] at h
      exact Nat.lt_succ_of_lt (ih h)

theorem afterFirstOcc_length_le {t : List Char} :
    ∀ {s r : List Char}, afterFirstOcc t s = some r → r.length ≤ s.length := by
  intro s
  induction s with
  | nil =>
    intro r h
    by_cases ht : t.isPrefixOf ([] : List Char)
    · simp [afterFirstOcc, ht] at h; simp [← h]
    · simp [afterFirstOcc, ht] at h
  | cons c rest ih =>
    intro r h
    by_cases ht : t.isPrefixOf (c :: rest)
    · simp only [afterFirstOcc, if_pos ht, Option.some.injEq] at h
      subst h
      exact (List.length_drop _ _) ▸ Nat.sub_le _ _
    · simp only [afterFirstOcc, if_neg ht] at h
      exact Nat.le_succ_of_le (ih h)

theorem afterFirstOccNoNl_length_le {t : List Char} :
    ∀ {s r : List Char}, afterFirstOccNoNl t s = some r → r.length ≤ s.length := by
  intro s
  induction s with
  | nil =>
    intro r h
    by_cases ht : t.isPrefixOf ([] : List Char)
    · simp [afterFirstOccNoNl, ht] at h; simp [← h]
    · simp [afterFirstOccNoNl, ht] at h
  | cons c rest ih =>
    intro r h
    by_cases ht : t.isPrefixOf (c :: rest)
    · simp only [afterFirstOccNoNl, if_pos ht, Option.some.injEq] at h
      subst h
      exact (List.length_drop _ _) ▸ Nat.sub_le _ _
    · by_cases hn : c = '\n'
      · simp only [afterFirstOccNoNl, if_neg ht, if_pos hn] at h
        exact absurd h (by simp)
      · simp only [afterFirstOccNoNl, if_neg ht, if_neg hn] at h
        exact Nat.le_succ_of_le (ih h)

/-- Close of a `<pre…>` opening at the current position: `[^>]*>` then a lazy
dot-all scan to `</pre>`.  Returns the suffix after the whole match. -/
def preClose (rest : List Char) : Option (List Char) :=
  match afterFirstGt rest with
  | some afterOpen => afterFirstOcc ['<', '/', 'p', 'r', 'e', '>'] afterOpen
  | none => none

theorem preClose_length_lt {rest r : List Char} (h : preClose rest = some r) :
    r.length < rest.length := by
  unfold preClose at h
  cases hg : afterFirstGt rest with
  | none => rw [hg] at h; exact absurd h (by simp)
  | some afterOpen =>
    rw [hg] at h
    exact Nat.lt_of_le_of_lt (afterFirstOcc_length_le h) (afterFirstGt_length_lt hg)

/-- Global strip of `/<pre[^>]*>.*?<\/pre>/gs` (code blocks). -/
def stripPre : List Char → List Char
  | [] => []
  | c :: rest =>
    if c = '<' ∧ ['p', 'r', 'e'].isPrefixOf rest then
      match h : preClose (rest.drop 3) with
      | some b => stripPre b
      | none => c :: stripPre rest
    else c :: stripPre rest
termination_by s => s.length
decreasing_by
  · exact Nat.lt_succ_of_lt (Nat.lt_of_lt_of_le (preClose_length_lt h)
      (Nat.le_trans (List.length_drop 3 rest ▸ Nat.sub_le _ _) (Nat.le_refl _)))
  · simp
  · simp

/-- Close of a `<code…>` opening: `[^>]*>` then a lazy newline-blocked scan to
`</code>`. -/
def codeClose (rest : List Char) : Option (List Char) :=
  match afterFirstGt rest with
  | some afterOpen => afterFirstOccNoNl ['<', '/', 'c', 'o', 'd', 'e', '>'] afterOpen
  | none => none

theorem codeClose_length_lt {rest r : List Char} (h : codeClose rest = some r) :
    r.length < rest.length := by
  unfold codeClose at h
  cases hg : afterFirstGt rest with
  | none => rw [hg] at h; exact absurd h (by simp)
  | some afterOpen =>
    rw [hg] at h
    exact Nat.lt_of_le_of_lt (afterFirstOccNoNl_length_le h) (afterFirstGt_length_lt hg)

/-- Global strip of `/<code[^>]*>.*?<\/code>/g` (inline code). -/
def stripCode : List Char → List Char
  | [] => []
  | c :: rest =>
    if c = '<' ∧ ['c', 'o', 'd', 'e'].isPrefixOf rest then
      match h : codeClose (rest.drop 4) with
      | some b => stripCode b
      | none => c :: stripCode rest
    else c :: stripCode rest
termination_by s => s.length
decreasing_by
  · exact Nat.lt_succ_of_lt (Nat.lt_of_lt_of_le (codeClose_length_lt h)
      (List.length_drop 4 rest ▸ Nat.sub_le _ _))
  · simp
  · simp

/-- Global strip of `/\$\$.*?\$\$/g` (display math). -/
def stripDisplayMath : List Char → List Char
  | [] => []
  | c :: rest =>
    if c = '$' ∧ ['$'].isPrefixOf rest then
      match h : afterFirstOccNoNl ['$', '$'] (rest.drop 1) with
      | some b => stripDisplayMath b
      | none => c :: stripDisplayMath rest
    else c :: stripDisplayMath rest
termination_by s => s.length
decreasing_by
  · exact Nat.lt_succ_of_le (Nat.le_trans (afterFirstOccNoNl_length_le h)
      (List.length_drop 1 rest ▸ Nat.sub_le _ _))
  · simp
  · simp

/-- Global strip of `/\$.*?\$/g` (inline math). -/
def stripInlineMath : List Char → List Char
  | [] => []
  | c :: rest =>
    if c = '$' then
      match h : afterFirstOccNoNl ['$'] rest with
      | some b => stripInlineMath b
      | none => c :: stripInlineMath rest
    else c :: stripInlineMath rest
termination_by s => s.length
decreasing_by
  · exact Nat.lt_succ_of_le (afterFirstOccNoNl_length_le h)
  · simp
  · simp

/-- End of an HTML tag: `[^>]+>` needs one non-`'>'` character, then runs
through the first `'>'`. -/
def tagClose : List Char → Option (List Char)
  | [] => none
  | c :: rest => if c = '>' then none else afterFirstGt rest

theorem tagClose_length_lt {rest r : List Char} (h : tagClose rest = some r) :
    r.length < rest.length := by
  cases rest with
  | nil => exact absurd h (by simp [tagClose])
  | cons c cs =>
    by_cases hc : c = '>'
    · simp [tagClose, hc] at h
    · simp only [tagClose, if_neg hc] at h
      exact Nat.lt_succ_of_lt (afterFirstGt_length_lt h)

/-- Global strip of `/<[^>]+>/g` (remaining HTML tags). -/
def stripTags : List Char → List Char
  | [] => []
  | c :: rest =>
    if c = '<' then
      match h : tagClose rest with
      | some b => stripTags b
      | none => c :: stripTags rest
    else c :: stripTags rest
termination_by s => s.length
decreasing_by
  · exact Nat.lt_succ_of_lt (tagClose_length_lt h)
  · simp
  · simp

/-- The whole stripping pipeline of `calculateWordCountFromHtml`, in source
order: code blocks, inline code, display math, inline math, HTML tags. -/
def stripContent (s : List Char) : List Char :=
  stripTags (stripInlineMath (stripDisplayMath (stripCode (stripPre s))))

/-- `[a-zA-Z]` -/
def isLatinLetter (c : Char) : Bool :=
  ('a' ≤ c ∧ c ≤ 'z') ∨ ('A' ≤ c ∧ c ≤ 'Z')

/-- CJK ranges of the fallback: `[一-鿿㐀-䶿぀-ゟ゠-ヿ]` -/
def isCJK (c : Char) : Bool :=
  (0x4e00 ≤ c.toNat ∧ c.toNat ≤ 0x9fff) ∨ (0x3400 ≤ c.toNat ∧ c.toNat ≤ 0x4dbf) ∨
    (0x3040 ≤ c.toNat ∧ c.toNat ≤ 0x309f) ∨ (0x30a0 ≤ c.toNat ∧ c.toNat ≤ 0x30ff)

/-- `[؀-ۿ]` -/
def isArabic (c : Char) : Bool :=
  0x600 ≤ c.toNat ∧ c.toNat ≤ 0x6ff

/-- `[Ѐ-ӿ]` -/
def isCyrillic (c : Char) : Bool :=
  0x400 ≤ c.toNat ∧ c.toNat ≤ 0x4ff

/-- `[֐-׿]` -/
def isHebrew (c : Char) : Bool :=
  0x590 ≤ c.toNat ∧ c.toNat ≤ 0x5ff

/-- Number of maximal runs of characters satisfying `p` (the number of global
matches of `/X+/g` for a character class `X`), tracked by whether the previous
character was in a run. -/
def countRunsAux (p : Char → Bool) : Bool → List Char → Nat
  | _, [] => 0
  | prev, c :: rest =>
    (if p c ∧ ¬prev then 1 else 0) + countRunsAux p (p c) rest

def countRuns (p : Char → Bool) (s : List Char) : Nat :=
  countRunsAux p false s

/-- The script-range fallback of `calculateWordCountFromHtml` (lines 54-61 of
`utils.ts`): Latin/Arabic/Cyrillic/Hebrew word runs plus CJK characters. -/
def fallbackWordCount (s : List Char) : Nat :=
  countRuns isLatinLetter s + s.countP isCJK + countRuns isArabic s +
    countRuns isCyrillic s + countRuns isHebrew s

/-- `calculateWordCountFromHtml(html)`, parameterised by the word-segmentation
backend `counter` applied to the stripped content (`Intl.Segmenter` when the
runtime provides it, else the script-range `fallbackWordCount`).  `!html`
short-circuits both `null`/`undefined` (here `none`) and the empty string
to `0`. -/
def calculateWordCountFromHtml (counter : List Char → Nat) : Option String → Nat
  | none => 0
  | some html => if html = "" then 0 else counter (stripContent html.data)

/-! ### Markup-inertness lemmas for the stripping pipeline -/

theorem stripPre_append {p : List Char} (s : List Char) (hp : ∀ x ∈ p, x ≠ '<') :
    stripPre (p ++ s) = p ++ stripPre s := by
  induction p with
  | nil => simp
  | cons c p' ih =>
    have hc : c ≠ '<' := hp c (by simp)
    rw [List.cons_append, stripPre, if_neg (fun hco => hc hco.1)]
    rw [ih (fun x hx => hp x (by simp [hx]))]
    simp

theorem stripCode_append {p : List Char} (s : List Char) (hp : ∀ x ∈ p, x ≠ '<') :
    stripCode (p ++ s) = p ++ stripCode s := by
  induction p with
  | nil => simp
  | cons c p' ih =>
    have hc : c ≠ '<' := hp c (by simp)
    rw [List.cons_append, stripCode, if_neg (fun hco => hc hco.1)]
    rw [ih (fun x hx => hp x (by simp [hx]))]
    simp

theorem stripDisplayMath_append {p : List Char} (s : List Char) (hp : ∀ x ∈ p, x ≠ '$') :
    stripDisplayMath (p ++ s) = p ++ stripDisplayMath s := by
  induction p with
  | nil => simp
  | cons c p' ih =>
    have hc : c ≠ '$' := hp c (by simp)
    rw [List.cons_append, stripDisplayMath, if_neg (fun hco => hc hco.1)]
    rw [ih (fun x hx => hp x (by simp [hx]))]
    simp

theorem stripInlineMath_append {p : List Char} (s : List Char) (hp : ∀ x ∈ p, x ≠ '$') :
    stripInlineMath (p ++ s) = p ++ stripInlineMath s := by
  induction p with
  | nil => simp
  | cons c p' ih =>
    have hc : c ≠ '$' := hp c (by simp)
    rw [List.cons_append, stripInlineMath, if_neg hc]
    rw [ih (fun x hx => hp x (by simp [hx]))]
    simp

theorem stripTags_append {p : List Char} (s : List Char) (hp : ∀ x ∈ p, x ≠ '<') :
    stripTags (p ++ s) = p ++ stripTags s := by
  induction p with
  | nil => simp
  | cons c p' ih =>
    have hc : c ≠ '<' := hp c (by simp)
    rw [List.cons_append, stripTags, if_neg hc]
    rw [ih (fun x hx => hp x (by simp [hx]))]
    simp

theorem stripPre_eq_self {s : List Char} (hs : ∀ x ∈ s, x ≠ '<') : stripPre s = s := by
  have := stripPre_append (p := s) [] hs
  simpa [stripPre] using this

theorem stripCode_eq_self {s : List Char} (hs : ∀ x ∈ s, x ≠ '<') : stripCode s = s := by
  have := stripCode_append (p := s) [] hs
  simpa [stripCode] using this

theorem stripDisplayMath_eq_self {s : List Char} (hs : ∀ x ∈ s, x ≠ '$') :
    stripDisplayMath s = s := by
  have := stripDisplayMath_append (p := s) [] hs
  simpa [stripDisplayMath] using this

theorem stripInlineMath_eq_self {s : List Char} (hs : ∀ x ∈ s, x ≠ '$') :
    stripInlineMath s = s := by
  have := stripInlineMath_append (p := s) [] hs
  simpa [stripInlineMath] using this

theorem stripTags_eq_self {s : List Char} (hs : ∀ x ∈ s, x ≠ '<') : stripTags s = s := by
  have := stripTags_append (p := s) [] hs
  simpa [stripTags] using this

/-- On content free of `'<'` and `'$'` the whole pipeline is the identity. -/
theorem stripContent_eq_self {s : List Char} (h1 : ∀ x ∈ s, x ≠ '<')
    (h2 : ∀ x ∈ s, x ≠ '$') : stripContent s = s := by
  unfold stripContent
  rw [stripPre_eq_self h1, stripCode_eq_self h1, stripDisplayMath_eq_self h2,
    stripInlineMath_eq_self h2, stripTags_eq_self h1]

theorem afterFirstOcc_skip {c0 : Char} {t' b : List Char} :
    ∀ {code : List Char}, (∀ x ∈ code, x ≠ c0) →
      afterFirstOcc (c0 :: t') (code ++ (c0 :: t') ++ b) = some b := by
  intro code
  induction code with
  | nil =>
    intro _
    have hp : (c0 :: t').isPrefixOf ((c0 :: t') ++ b) = true := by
      rw [List.isPrefixOf_iff_prefix]
      exact List.prefix_append _ _
    have hd : List.drop (c0 :: t').length ((c0 :: t') ++ b) = b := List.drop_left _ _
    show afterFirstOcc (c0 :: t') ((c0 :: t') ++ b) = some b
    rw [show (c0 :: t') ++ b = c0 :: (t' ++ b) from List.cons_append c0 t' b] at hp hd ⊢
    rw [afterFirstOcc, if_pos hp, hd]
  | cons x code' ih =>
    intro hcode
    have hx : x ≠ c0 := hcode x (by simp)
    show afterFirstOcc (c0 :: t') (x :: (code' ++ (c0 :: t') ++ b)) = some b
    have hnp : ¬ ((c0 :: t').isPrefixOf (x :: (code' ++ (c0 :: t') ++ b)) = true) := by
      rw [List.isPrefixOf_iff_prefix, List.cons_prefix_cons]
      rintro ⟨hEq, -⟩
      exact hx hEq.symm
    rw [afterFirstOcc, if_neg hnp]
    exact ih (fun y hy' => hcode y (by simp [hy']))

/-- Match-step lemma: a `<pre…>` opening with a close skips to the suffix. -/
theorem stripPre_skip {c : Char} {rest b : List Char}
    (h1 : c = '<' ∧ ['p', 'r', 'e'].isPrefixOf rest) (h2 : preClose (rest.drop 3) = some b) :
    stripPre (c :: rest) = stripPre b := by
  rw [stripPre, if_pos h1]
  split
  next b' heq => rw [h2] at heq; injection heq with h3; rw [h3]
  next heq => rw [h2] at heq; simp at heq

/-- Match-step lemma: a `'<'` opening a complete tag skips to the suffix. -/
theorem stripTags_skip {rest b : List Char} (h : tagClose rest = some b) :
    stripTags ('<' :: rest) = stripTags b := by
  rw [stripTags, if_pos rfl]
  split
  next b' heq => rw [h] at heq; injection heq with h3; rw [h3]
  next heq => rw [h] at heq; simp at heq

/-- A `'<'`-free, `'$'`-free context absorbs a `<div>…</div>` wrapper: the
pipeline erases exactly the two wrapper tags. -/
theorem stripContent_div_wrap {c : List Char} (h1 : ∀ x ∈ c, x ≠ '<')
    (h2 : ∀ x ∈ c, x ≠ '$') :
    stripContent ('<' :: 'd' :: 'i' :: 'v' :: '>' :: (c ++ ['<', '/', 'd', 'i', 'v', '>'])) =
      c := by
  have hdiv : ∀ x ∈ ['d', 'i', 'v', '>'], x ≠ '<' := by decide
  have hclose2 : ∀ x ∈ ['/', 'd', 'i', 'v', '>'], x ≠ '<' := by decide
  have hWdollar : ∀ x ∈ '<' :: 'd' :: 'i' :: 'v' :: '>' ::
      (c ++ ['<', '/', 'd', 'i', 'v', '>']), x ≠ '$' := by
    intro x hx
    simp only [List.mem_cons, List.mem_append] at hx
    rcases hx with h | h | h | h | h | h | h
    · subst h; decide
    · subst h; decide
    · subst h; decide
    · subst h; decide
    · subst h; decide
    · exact h2 x h
    · rcases h with h | h | h | h | h | h | h
      · subst h; decide
      · subst h; decide
      · subst h; decide
      · subst h; decide
      · subst h; decide
      · subst h; decide
      · exact absurd h (by simp)
  -- `<pre…>` never matches: each `'<'` is followed by `'d'` or `'/'`.
  have hpre : stripPre ('<' :: 'd' :: 'i' :: 'v' :: '>' ::
      (c ++ ['<', '/', 'd', 'i', 'v', '>'])) =
      '<' :: 'd' :: 'i' :: 'v' :: '>' :: (c ++ ['<', '/', 'd', 'i', 'v', '>']) := by
    rw [stripPre, if_neg (by simp [List.isPrefixOf])]
    rw [show ('d' :: 'i' :: 'v' :: '>' :: (c ++ ['<', '/', 'd', 'i', 'v', '>'])) =
      (['d', 'i', 'v', '>'] ++ c) ++ ['<', '/', 'd', 'i', 'v', '>'] by simp]
    rw [stripPre_append _ (by
      intro x hx
      rcases List.mem_append.mp hx with h | h
      · exact (by decide : ∀ y ∈ (['d', 'i', 'v', '>'] : List Char), y ≠ '<') x h
      · exact h1 x h)]
    rw [stripPre, if_neg (by simp [List.isPrefixOf])]
    rw [stripPre_eq_self hclose2]
  have hcode : stripCode ('<' :: 'd' :: 'i' :: 'v' :: '>' ::
      (c ++ ['<', '/', 'd', 'i', 'v', '>'])) =
      '<' :: 'd' :: 'i' :: 'v' :: '>' :: (c ++ ['<', '/', 'd', 'i', 'v', '>']) := by
    rw [stripCode, if_neg (by simp [List.isPrefixOf])]
    rw [show ('d' :: 'i' :: 'v' :: '>' :: (c ++ ['<', '/', 'd', 'i', 'v', '>'])) =
      (['d', 'i', 'v', '>'] ++ c) ++ ['<', '/', 'd', 'i', 'v', '>'] by simp]
    rw [stripCode_append _ (by
      intro x hx
      rcases List.mem_append.mp hx with h | h
      · exact (by decide : ∀ y ∈ (['d', 'i', 'v', '>'] : List Char), y ≠ '<') x h
      · exact h1 x h)]
    rw [stripCode, if_neg (by simp [List.isPrefixOf])]
    rw [stripCode_eq_self hclose2]
  have htags : stripTags ('<' :: 'd' :: 'i' :: 'v' :: '>' ::
      (c ++ ['<', '/', 'd', 'i', 'v', '>'])) = c := by
    have t1 : tagClose ('d' :: 'i' :: 'v' :: '>' :: (c ++ ['<', '/', 'd', 'i', 'v', '>'])) =
        some (c ++ ['<', '/', 'd', 'i', 'v', '>']) := by
      simp [tagClose, afterFirstGt]
    have t2 : tagClose (['/', 'd', 'i', 'v', '>'] : List Char) = some [] := by
      simp [tagClose, afterFirstGt]
    rw [stripTags_skip t1, stripTags_append _ h1, stripTags_skip t2]
    simp [stripTags]
  unfold stripContent
  rw [hpre, hcode, stripDisplayMath_eq_self hWdollar, stripInlineMath_eq_self hWdollar, htags]

/-- A `<pre>…</pre>` block whose body has no `'<'` is removed whole by the
code-block strip, and surrounding `'<'`/`'$'`-free prose passes through the
rest of the pipeline unchanged. -/
theorem stripContent_pre_insert {a code b : List Char} (ha1 : ∀ x ∈ a, x ≠ '<')
    (ha2 : ∀ x ∈ a, x ≠ '$') (hcode : ∀ x ∈ code, x ≠ '<')
    (hb1 : ∀ x ∈ b, x ≠ '<') (hb2 : ∀ x ∈ b, x ≠ '$') :
    stripContent (a ++ ['<', 'p', 'r', 'e', '>'] ++ code ++ ['<', '/', 'p', 'r', 'e', '>'] ++ b) =
      a ++ b := by
  have hpre : stripPre (a ++ ['<', 'p', 'r', 'e', '>'] ++ code ++
      ['<', '/', 'p', 'r', 'e', '>'] ++ b) = a ++ b := by
    rw [show a ++ ['<', 'p', 'r', 'e', '>'] ++ code ++ ['<', '/', 'p', 'r', 'e', '>'] ++ b =
      a ++ ('<' :: 'p' :: 'r' :: 'e' :: '>' ::
        (code ++ ['<', '/', 'p', 'r', 'e', '>'] ++ b)) by simp]
    rw [stripPre_append _ ha1]
    have hclose : preClose (('p' :: 'r' :: 'e' :: '>' ::
        (code ++ ['<', '/', 'p', 'r', 'e', '>'] ++ b)).drop 3) = some b := by
      rw [show ('p' :: 'r' :: 'e' :: '>' ::
        (code ++ ['<', '/', 'p', 'r', 'e', '>'] ++ b)).drop 3 =
        '>' :: (code ++ ['<', '/', 'p', 'r', 'e', '>'] ++ b) from rfl]
      unfold preClose
      rw [show afterFirstGt ('>' :: (code ++ ['<', '/', 'p', 'r', 'e', '>'] ++ b)) =
        some (code ++ ['<', '/', 'p', 'r', 'e', '>'] ++ b) by simp [afterFirstGt]]
      exact afterFirstOcc_skip hcode
    rw [stripPre_skip ⟨rfl, by simp [List.isPrefixOf]⟩ hclose]
    rw [stripPre_eq_self hb1]
  unfold stripContent
  rw [hpre]
  have hab1 : ∀ x ∈ a ++ b, x ≠ '<' := by
    intro x hx
    rcases List.mem_append.mp hx with h | h
    exacts [ha1 x h, hb1 x h]
  have hab2 : ∀ x ∈ a ++ b, x ≠ '$' := by
    intro x hx
    rcases List.mem_append.mp hx with h | h
    exacts [ha2 x h, hb2 x h]
  rw [stripCode_eq_self hab1, stripDisplayMath_eq_self hab2, stripInlineMath_eq_self hab2,
    stripTags_eq_self hab1]

/-- **C8 (counterexample).** The claim "for *every* content string, wrapping it
in a `<div>` element leaves the word count unchanged" fails at the concrete
content `"<pr"`: the dangling `'<'` fuses with the closing wrapper tag into a
tag match `<pr</div>`, so the wrapped form counts 0 while the bare form counts
1 (on the fallback segmentation path; `Intl.Segmenter` also finds the one
word-like segment `pr`). -/
theorem calculateWordCountFromHtml_wrap_counterexample :
    calculateWordCountFromHtml fallbackWordCount (some ("<div>" ++ "<pr" ++ "</div>")) = 0 ∧
    calculateWordCountFromHtml fallbackWordCount (some "<pr") = 1 := by
  have h1 : ("<div>" ++ "<pr" ++ "</div>" : String) = "<div><pr</div>" := by decide
  rw [h1]
  constructor
  · simp [calculateWordCountFromHtml, stripContent, stripPre, stripCode, stripDisplayMath,
      stripInlineMath, stripTags, preClose, codeClose, tagClose, afterFirstGt, afterFirstOcc,
      afterFirstOccNoNl, fallbackWordCount, countRuns, countRunsAux, isLatinLetter, isCJK,
      isArabic, isCyrillic, isHebrew, List.countP, List.countP.go]
  · simp [calculateWordCountFromHtml, stripContent, stripPre, stripCode, stripDisplayMath,
      stripInlineMath, stripTags, preClose, codeClose, tagClose, afterFirstGt, afterFirstOcc,
      afterFirstOccNoNl, fallbackWordCount, countRuns, countRunsAux, isLatinLetter, isCJK,
      isArabic, isCyrillic, isHebrew, List.countP, List.countP.go]

/-- **C8 (amended).** For every content string free of stray `'<'` and of
`'$'` (so that the wrapper really is inert markup), wrapping it in a `<div>`
element leaves the word count of `calculateWorCountFromHtml` unchanged, for
any word-segmentation backend mapping empty content to 0; and a
`<pre>…</pre>` code block whose body contains no `'<'` never contributes to
the count: inserting it between two such prose fragments leaves the count
equal to that of the prose alone (so a 50-word code block in a 10-word post
still yields 10). -/
theorem calculateWordCountFromHtml_inert_markup :
    (∀ (counter : List Char → Nat) (c : String), counter [] = 0 →
        (∀ x ∈ c.data, x ≠ '<') → (∀ x ∈ c.data, x ≠ '$') →
        calculateWordCountFromHtml counter (some ("<div>" ++ c ++ "</div>")) =
          calculateWordCountFromHtml counter (some c)) ∧
    (∀ (counter : List Char → Nat) (a code b : String), counter [] = 0 →
        (∀ x ∈ a.data, x ≠ '<') → (∀ x ∈ a.data, x ≠ '$') →
        (∀ x ∈ code.data, x ≠ '<') →
        (∀ x ∈ b.data, x ≠ '<') → (∀ x ∈ b.data, x ≠ '$') →
        calculateWordCountFromHtml counter (some (a ++ "<pre>" ++ code ++ "</pre>" ++ b)) =
          calculateWordCountFromHtml counter (some (a ++ b))) := by
  constructor
  · intro counter c h0 h1 h2
    have hdo : ("<div>" : String).data = ['<', 'd', 'i', 'v', '>'] := by decide
    have hdc : ("</div>" : String).data = ['<', '/', 'd', 'i', 'v', '>'] := by decide
    have hdata : ("<div>" ++ c ++ "</div>").data =
        '<' :: 'd' :: 'i' :: 'v' :: '>' :: (c.data ++ ['<', '/', 'd', 'i', 'v', '>']) := by
      rw [String.data_append, String.data_append, hdo, hdc]
      simp
    have hne : ("<div>" ++ c ++ "</div>") ≠ "" := by
      intro he
      have h' : ("<div>" ++ c ++ "</div>").data = [] := by rw [he]
      rw [hdata] at h'
      exact List.noConfusion h'
    simp only [calculateWordCountFromHtml]
    rw [if_neg hne, hdata, stripContent_div_wrap h1 h2]
    by_cases hc : c = ""
    · subst hc
      rw [if_pos rfl]
      exact h0
    · rw [if_neg hc, stripContent_eq_self h1 h2]
  · intro counter a code b h0 ha1 ha2 hcode hb1 hb2
    have hdo : ("<pre>" : String).data = ['<', 'p', 'r', 'e', '>'] := by decide
    have hdc : ("</pre>" : String).data = ['<', '/', 'p', 'r', 'e', '>'] := by decide
    have hdata : (a ++ "<pre>" ++ code ++ "</pre>" ++ b).data =
        a.data ++ ['<', 'p', 'r', 'e', '>'] ++ code.data ++ ['<', '/', 'p', 'r', 'e', '>'] ++
          b.data := by
      simp [String.data_append, hdo, hdc]
    have hne : (a ++ "<pre>" ++ code ++ "</pre>" ++ b) ≠ "" := by
      intro he
      have h' : (a ++ "<pre>" ++ code ++ "</pre>" ++ b).data = [] := by rw [he]
      rw [hdata] at h'
      simp at h'
    have habdata : (a ++ b).data = a.data ++ b.data := String.data_append a b
    have hab1 : ∀ x ∈ (a ++ b).data, x ≠ '<' := by
      rw [habdata]
      intro x hx
      rcases List.mem_append.mp hx with h | h
      exacts [ha1 x h, hb1 x h]
    have hab2 : ∀ x ∈ (a ++ b).data, x ≠ '$' := by
      rw [habdata]
      intro x hx
      rcases List.mem_append.mp hx with h | h
      exacts [ha2 x h, hb2 x h]
    simp only [calculateWordCountFromHtml]
    rw [if_neg hne, hdata, stripContent_pre_insert ha1 ha2 hcode hb1 hb2]
    by_cases hab : (a ++ b) = ""
    · rw [if_pos hab]
      have h' : a.data ++ b.data = [] := by rw [← habdata, hab]
      rw [h']
      exact h0
    · rw [if_neg hab, stripContent_eq_self (habdata ▸ hab1) (habdata ▸ hab2), habdata]

/-- A 50-word code-block body used by the C8 witness. -/
def fiftyWordCode : String :=
  "alpha bravo charlie delta echo foxtrot golf hotel india juliet kilo lima " ++
    "mike november oscar papa quebec romeo sierra tango uniform victor whiskey " ++
    "xray yankee zulu one two three four five six seven eight nine ten eleven " ++
    "twelve thirteen fourteen fifteen sixteen seventeen eighteen nineteen twenty " ++
    "twentyone twentytwo twentythree twentyfour"

set_option maxRecDepth 100000 in
/-- Witness for C8 at concrete inputs: a `<div>` wrapper around a ten-word
post changes nothing, and inserting the 50-word code block into the ten-word
post still yields a word count of 10. -/
theorem calculateWordCountFromHtml_inert_markup_witness :
    calculateWordCountFromHtml fallbackWordCount
        (some ("<div>" ++ "one two three four five six seven eight nine ten" ++ "</div>")) =
      calculateWordCountFromHtml fallbackWordCount
        (some "one two three four five six seven eight nine ten") ∧
    calculateWordCountFromHtml fallbackWordCount
        (some ("one two three four five " ++ "<pre>" ++ fiftyWordCode ++ "</pre>" ++
          "six seven eight nine ten")) = 10 := by
  constructor
  · exact calculateWordCountFromHtml_inert_markup.1 fallbackWordCount _ rfl
      (by decide) (by decide)
  · rw [calculateWordCountFromHtml_inert_markup.2 fallbackWordCount _ fiftyWordCode _ rfl
      (by decide) (by decide) (by decide) (by decide) (by decide)]
    have h1 : ("one two three four five " ++ "six seven eight nine ten" : String) =
        "one two three four five six seven eight nine ten" := by decide
    rw [h1]
    simp only [calculateWordCountFromHtml]
    rw [if_neg (by decide), stripContent_eq_self (by decide) (by decide)]
    decide

/-! ## Data model (`src/lib/blog/types.ts`)

A `Post` is an Astro content entry: its frontmatter `data`, its raw `body`,
the optionally pre-rendered HTML (`post.rendered?.html`), and the markdown
headings that the external `render(post)` collaborator produces for it.  An
author reference is modelled by its id.  The `Store` stands for the Astro
content collections (`blog` and `authors`). -/

structure AuthorData where
  id : String
  name : String
deriving DecidableEq

structure MarkdownHeading where
  depth : Nat
  slug : String
  text : String
deriving DecidableEq

structure PostData where
  title : String
  createdAt : Int
  order : Option Int
  draft : Bool
  tags : List String
  authors : List String
deriving DecidableEq

structure Post where
  id : String
  data : PostData
  body : String
  rendered : Option String
  headings : List MarkdownHeading
deriving DecidableEq

structure Store where
  blog : List Post
  authors : List AuthorData
deriving DecidableEq

/-- `calculateWordCountFromPost(post)`: word count of
`post.rendered?.html || post.body` (a missing or falsy — empty — rendered
HTML falls back to the raw body). -/
def calculateWordCountFromPost (counter : List Char → Nat) (post : Post) : Nat :=
  match post.rendered with
  | some html =>
    if html = "" then calculateWordCountFromHtml counter (some post.body)
    else calculateWordCountFromHtml counter (some html)
  | none => calculateWordCountFromHtml counter (some post.body)

/-- `resolveAuthors`: each reference is looked up independently and failed
lookups are dropped (settle-all, keep successes). -/
def resolveAuthors (store : Store) (authorRefs : List String) : List AuthorData :=
  authorRefs.filterMap (fun ref => store.authors.find? (fun author => author.id == ref))

structure PostMeta where
  title : String
  createdAt : Int
  order : Option Int
  draft : Bool
  tags : List String
  id : String
  wordCount : Nat
  combinedWordCount : Option Nat
  subpostCount : Nat
  hasSubposts : Bool
  isSubpost : Bool
  authors : List AuthorData
deriving DecidableEq

structure PostNavigation where
  newer : Option Post
  older : Option Post
  parent : Option Post
deriving DecidableEq

/-! ## Core post operations (`src/lib/blog/manager.ts`, `PostManagerImpl`)

The JavaScript `Array.prototype.sort` is stable, and a stable sort w.r.t. a
total preorder has a unique result, so both comparator-based sorts are
modelled by `List.insertionSort` (Mathlib's stable sort) over the preorder
the comparator induces. -/

/-- `getEntry("blog", postId)` followed by the draft guard of `getPostById`:
drafts and missing posts yield `null`. -/
def getPostById (store : Store) (postId : String) : Option Post :=
  match store.blog.find? (fun post => post.id == postId) with
  | some post => if post.data.draft then none else some post
  | none => none

/-- The preorder of `sortByDateDesc`'s comparator
`(a, b) => b.data.createdAt.valueOf() - a.data.createdAt.valueOf()`:
`a` may precede `b` iff the comparator is ≤ 0. -/
def byDateDesc (a b : Post) : Prop :=
  b.data.createdAt ≤ a.data.createdAt

instance : DecidableRel byDateDesc := fun a b => by
  unfold byDateDesc
  infer_instance

instance : IsTotal Post byDateDesc :=
  ⟨fun a b => le_total b.data.createdAt a.data.createdAt⟩

instance : IsTrans Post byDateDesc :=
  ⟨fun _ _ _ h1 h2 => le_trans h2 h1⟩

/-- `sortByDateDesc`: newest first. -/
def sortByDateDesc (items : List Post) : List Post :=
  items.insertionSort byDateDesc

/-- The preorder of `getSubpostsByParent`'s comparator: ascending creation
date, ties broken by the optional `order` field (default 0, ascending). -/
def bySubpostOrder (a b : Post) : Prop :=
  a.data.createdAt < b.data.createdAt ∨
    (a.data.createdAt = b.data.createdAt ∧ a.data.order.getD 0 ≤ b.data.order.getD 0)

instance : DecidableRel bySubpostOrder := fun a b => by
  unfold bySubpostOrder
  infer_instance

instance : IsTotal Post bySubpostOrder := by
  constructor
  intro a b
  rcases lt_trichotomy a.data.createdAt b.data.createdAt with h | h | h
  · exact Or.inl (Or.inl h)
  · rcases le_total (a.data.order.getD 0) (b.data.order.getD 0) with ho | ho
    · exact Or.inl (Or.inr ⟨h, ho⟩)
    · exact Or.inr (Or.inr ⟨h.symm, ho⟩)
  · exact Or.inr (Or.inl h)

instance : IsTrans Post bySubpostOrder := by
  constructor
  intro a b c h1 h2
  rcases h1 with h1 | ⟨h1e, h1o⟩
  · rcases h2 with h2 | ⟨h2e, _⟩
    · exact Or.inl (lt_trans h1 h2)
    · exact Or.inl (h2e ▸ h1)
  · rcases h2 with h2 | ⟨h2e, h2o⟩
    · exact Or.inl (h1e ▸ h2)
    · exact Or.inr ⟨h1e.trans h2e, le_trans h1o h2o⟩

/-- `getMainPosts(count?)`: non-draft main posts, newest first; a falsy
`count` (absent or 0) returns them all. -/
def getMainPosts (store : Store) (count : Option Nat) : List Post :=
  let posts := store.blog.filter (fun post => !post.data.draft && !isSubpost post.id)
  let sortedPosts := sortByDateDesc posts
  match count with
  | some n => if n = 0 then sortedPosts else sortedPosts.take n
  | none => sortedPosts

/-- `getSubpostsByParent(parentId)`: non-draft subposts of the parent, sorted
ascending by date then `order`. -/
def getSubpostsByParent (store : Store) (parentId : String) : List Post :=
  let subposts := store.blog.filter (fun post =>
    !post.data.draft && isSubpost post.id && (getParentId post.id == parentId))
  subposts.insertionSort bySubpostOrder

/-- `getNavigation(currentIdOrPost)` (the id form): sibling navigation for
subposts, date-descending navigation for main posts.  `findIndex` returning
`-1` is modelled by `findIdx?` returning `none`. -/
def getNavigation (store : Store) (currentId : String) : PostNavigation :=
  if isSubpost currentId then
    let parentId := getParentId currentId
    let parentPost := getPostById store parentId
    let subposts := getSubpostsByParent store parentId
    match subposts.findIdx? (fun post => post.id == currentId) with
    | none => { newer := none, older := none, parent := parentPost }
    | some currentIndex =>
      { newer := if currentIndex < subposts.length - 1 then subposts[currentIndex + 1]? else none,
        older := if 0 < currentIndex then subposts[currentIndex - 1]? else none,
        parent := parentPost }
  else
    let allMainPosts := getMainPosts store none
    match allMainPosts.findIdx? (fun post => post.id == currentId) with
    | none => { newer := none, older := none, parent := none }
    | some currentIndex =>
      { newer := if 0 < currentIndex then allMainPosts[currentIndex - 1]? else none,
        older :=
          if currentIndex < allMainPosts.length - 1 then allMainPosts[currentIndex + 1]?
          else none,
        parent := none }

/-- `getMetadata(postId)`: throws (`Except.error`) when the post is missing
or a draft; otherwise aggregates word counts, subpost counts and authors. -/
def getMetadata (counter : List Char → Nat) (store : Store) (postId : String) :
    Except String PostMeta :=
  match getPostById store postId with
  | none => Except.error ("Post not found: " ++ postId)
  | some post =>
    let authors := resolveAuthors store post.data.authors
    if isSubpost postId then
      let wordCount := calculateWordCountFromPost counter post
      Except.ok
        { title := post.data.title, createdAt := post.data.createdAt,
          order := post.data.order, draft := post.data.draft, tags := post.data.tags,
          id := post.id, wordCount := wordCount, combinedWordCount := none,
          subpostCount := 0, hasSubposts := false, isSubpost := true, authors := authors }
    else
      let subposts := getSubpostsByParent store postId
      let wordCount := calculateWordCountFromPost counter post
      let subpostCount := subposts.length
      let hasSubposts := decide (subpostCount > 0)
      let combinedWordCount : Option Nat :=
        if hasSubposts then
          some (wordCount + subposts.foldl
            (fun acc subpost => acc + calculateWordCountFromPost counter subpost) 0)
        else none
      Except.ok
        { title := post.data.title, createdAt := post.data.createdAt,
          order := post.data.order, draft := post.data.draft, tags := post.data.tags,
          id := post.id, wordCount := wordCount, combinedWordCount := combinedWordCount,
          subpostCount := subpostCount, hasSubposts := hasSubposts, isSubpost := false,
          authors := authors }

/-! ### Lookup lemmas: `getEntry` on a collection with unique ids -/

theorem find?_id_eq_self {blog : List Post} {p : Post} (hn : (blog.map Post.id).Nodup)
    (hp : p ∈ blog) : blog.find? (fun q => q.id == p.id) = some p := by
  induction blog with
  | nil => cases hp
  | cons q blog' ih =>
    simp only [List.map_cons, List.nodup_cons] at hn
    rw [List.find?_cons]
    by_cases hq : q.id = p.id
    · rw [show (q.id == p.id) = true from beq_iff_eq.mpr hq]
      show some q = some p
      rcases List.mem_cons.mp hp with hEq | hmem
      · rw [hEq]
      · exact absurd (hq ▸ List.mem_map_of_mem Post.id hmem) hn.1
    · rw [show (q.id == p.id) = false from beq_eq_false_iff_ne.mpr hq]
      show blog'.find? (fun q => q.id == p.id) = some p
      rcases List.mem_cons.mp hp with hEq | hmem
      · exact absurd (hEq ▸ rfl) hq
      · exact ih hn.2 hmem

theorem getPostById_eq_self {store : Store} {p : Post}
    (hn : (store.blog.map Post.id).Nodup) (hp : p ∈ store.blog)
    (hd : p.data.draft = false) : getPostById store p.id = some p := by
  unfold getPostById
  rw [find?_id_eq_self hn hp]
  show (if p.data.draft = true then none else some p) = some p
  rw [if_neg (by simp [hd])]

theorem getPostById_eq_some_iff {store : Store} {postId : String}
    (hn : (store.blog.map Post.id).Nodup) :
    (∃ p, getPostById store postId = some p) ↔
      ∃ p ∈ store.blog, p.id = postId ∧ p.data.draft = false := by
  constructor
  · rintro ⟨p, h⟩
    unfold getPostById at h
    cases hf : store.blog.find? (fun q => q.id == postId) with
    | none => rw [hf] at h; exact absurd h (by simp)
    | some q =>
      rw [hf] at h
      have h' : (if q.data.draft = true then none else some q) = some p := h
      by_cases hdq : q.data.draft
      · rw [if_pos hdq] at h'
        exact absurd h' (by simp)
      · rw [if_neg hdq] at h'
        have hq := List.find?_some hf
        exact ⟨q, List.mem_of_find?_eq_some hf, by simpa using hq,
          Bool.eq_false_iff.mpr hdq⟩
  · rintro ⟨p, hmem, hid, hdraft⟩
    subst hid
    exact ⟨p, getPostById_eq_self hn hmem hdraft⟩

theorem findIdx?_id_aux :
    ∀ (L : List Post) (start i : Nat) (p : Post), (L.map Post.id).Nodup →
      L[i]? = some p → L.findIdx? (fun q => q.id == p.id) start = some (start + i) := by
  intro L
  induction L with
  | nil => intro start i p _ h; simp at h
  | cons q L' ih =>
    intro start i p hn h
    simp only [List.map_cons, List.nodup_cons] at hn
    rw [List.findIdx?_cons]
    cases i with
    | zero =>
      simp only [List.getElem?_cons_zero, Option.some.injEq] at h
      subst h
      rw [if_pos (by simp)]
      simp
    | succ j =>
      have h' : L'[j]? = some p := by simpa using h
      have hmem : p ∈ L' := List.mem_iff_getElem?.mpr ⟨j, h'⟩
      have hq : ¬ (q.id = p.id) := fun hEq => hn.1 (hEq ▸ List.mem_map_of_mem Post.id hmem)
      rw [if_neg (by simp [hq])]
      rw [ih (start + 1) j p hn.2 h']
      congr 1
      omega

theorem foldl_add_eq_sum (f : Post → Nat) (l : List Post) :
    l.foldl (fun acc x => acc + f x) 0 = (l.map f).sum := by
  rw [List.sum_eq_foldl, List.foldl_map]

/-- **C1.** For every post id for which `getMetadata` succeeds, the returned
`PostMeta` satisfies: `isSubpost = true` implies `subpostCount = 0`,
`hasSubposts = false`, and `combinedWordCount = none`. -/
theorem getMetadata_subpost_invariant (counter : List Char → Nat) (store : Store)
    (postId : String) (m : PostMeta) (h : getMetadata counter store postId = Except.ok m)
    (hsub : m.isSubpost = true) :
    m.subpostCount = 0 ∧ m.hasSubposts = false ∧ m.combinedWordCount = none := by
  unfold getMetadata at h
  cases hp : getPostById store postId with
  | none => rw [hp] at h; exact absurd h (by simp)
  | some post =>
    rw [hp] at h
    simp only at h
    by_cases hs : isSubpost postId
    · rw [if_pos hs] at h
      have hm := Except.ok.inj h
      rw [← hm]
      exact ⟨rfl, rfl, rfl⟩
    · rw [if_neg hs] at h
      have hm := Except.ok.inj h
      rw [← hm] at hsub
      exact absurd hsub (by simp)

/-- Sample content store used by the concrete witnesses: main post `"intro"`
with two subposts (one without headings), an older main post, and a draft. -/
def introPost : Post :=
  { id := "intro",
    data := { title := "Intro Title", createdAt := 10, order := none, draft := false,
              tags := [], authors := [] },
    body := "", rendered := none, headings := [⟨2, "a", "A"⟩] }

def introSubOne : Post :=
  { id := "intro/one",
    data := { title := "One", createdAt := 11, order := none, draft := false,
              tags := [], authors := [] },
    body := "", rendered := none, headings := [⟨2, "c", "C"⟩] }

def introSubTwo : Post :=
  { id := "intro/two",
    data := { title := "Two", createdAt := 12, order := none, draft := false,
              tags := [], authors := [] },
    body := "", rendered := none, headings := [] }

def olderPost : Post :=
  { id := "older-post",
    data := { title := "Older", createdAt := 5, order := none, draft := false,
              tags := [], authors := [] },
    body := "", rendered := none, headings := [] }

def draftPost : Post :=
  { id := "draft-post",
    data := { title := "Draft", createdAt := 7, order := none, draft := true,
              tags := [], authors := [] },
    body := "", rendered := none, headings := [] }

def mainStore : Store :=
  { blog := [introPost, introSubOne, introSubTwo, olderPost, draftPost], authors := [] }

/-- The metadata of the subpost `"intro/one"` in the sample store. -/
def introSubOneMeta : PostMeta :=
  { title := "One", createdAt := 11, order := none, draft := false, tags := [],
    id := "intro/one", wordCount := 0, combinedWordCount := none, subpostCount := 0,
    hasSubposts := false, isSubpost := true, authors := [] }

/-- Witness for C1 at the concrete subpost `"intro/one"`. -/
theorem getMetadata_subpost_invariant_witness :
    introSubOneMeta.subpostCount = 0 ∧ introSubOneMeta.hasSubposts = false ∧
      introSubOneMeta.combinedWordCount = none :=
  getMetadata_subpost_invariant fallbackWordCount mainStore "intro/one" introSubOneMeta
    rfl rfl

/-- **C7.** `getMetadata(postId)` fails with the `Post not found` error iff no
post matches `postId` or the matching post is a draft; for every existing
non-draft post it returns a `PostMeta` — drafts are invisible. -/
theorem getMetadata_ok_iff (counter : List Char → Nat) (store : Store) (postId : String)
    (hn : (store.blog.map Post.id).Nodup) :
    (∃ m, getMetadata counter store postId = Except.ok m) ↔
      ∃ p ∈ store.blog, p.id = postId ∧ p.data.draft = false := by
  rw [← getPostById_eq_some_iff hn]
  constructor
  · rintro ⟨m, hm⟩
    unfold getMetadata at hm
    cases hp : getPostById store postId with
    | none => rw [hp] at hm; exact absurd hm (by simp)
    | some post => exact ⟨post, rfl⟩
  · rintro ⟨p, hp⟩
    by_cases hs : isSubpost postId
    · refine ⟨{ title := p.data.title, createdAt := p.data.createdAt, order := p.data.order,
                draft := p.data.draft, tags := p.data.tags, id := p.id,
                wordCount := calculateWordCountFromPost counter p, combinedWordCount := none,
                subpostCount := 0, hasSubposts := false, isSubpost := true,
                authors := resolveAuthors store p.data.authors }, ?_⟩
      simp [getMetadata, hp, hs]
    · refine ⟨{ title := p.data.title, createdAt := p.data.createdAt, order := p.data.order,
                draft := p.data.draft, tags := p.data.tags, id := p.id,
                wordCount := calculateWordCountFromPost counter p,
                combinedWordCount :=
                  if decide ((getSubpostsByParent store postId).length > 0) = true then
                    some (calculateWordCountFromPost counter p +
                      (getSubpostsByParent store postId).foldl
                        (fun acc subpost => acc + calculateWordCountFromPost counter subpost) 0)
                  else none,
                subpostCount := (getSubpostsByParent store postId).length,
                hasSubposts := decide ((getSubpostsByParent store postId).length > 0),
                isSubpost := false,
                authors := resolveAuthors store p.data.authors }, ?_⟩
      have hs' : isSubpost postId = false := by simpa using hs
      simp [getMetadata, hp, hs']

/-- Witness for C7: in the sample store, `"intro"` resolves to a `PostMeta`,
via the right-to-left direction at the existing non-draft post. -/
theorem getMetadata_ok_iff_witness :
    ∃ m, getMetadata fallbackWordCount mainStore "intro" = Except.ok m :=
  (getMetadata_ok_iff fallbackWordCount mainStore "intro" (by decide)).mpr
    ⟨introPost, by decide, rfl, rfl⟩

/-- **C2.** For every non-draft main post, `getMetadata` returns
`subpostCount` equal to the number of its non-draft subposts and
`hasSubposts = (subpostCount > 0)`; when at least one subpost exists,
`combinedWordCount` equals the post's own word count plus the sum of each
subpost's word count, and with zero subposts it is `none`. -/
theorem getMetadata_mainpost (counter : List Char → Nat) (store : Store) (p : Post)
    (hn : (store.blog.map Post.id).Nodup) (hp : p ∈ store.blog)
    (hd : p.data.draft = false) (hs : isSubpost p.id = false) :
    ∃ m, getMetadata counter store p.id = Except.ok m ∧
      m.subpostCount = (store.blog.filter (fun q =>
        !q.data.draft && isSubpost q.id && (getParentId q.id == p.id))).length ∧
      m.hasSubposts = decide (0 < m.subpostCount) ∧
      (0 < m.subpostCount → m.combinedWordCount =
        some (calculateWordCountFromPost counter p +
          ((store.blog.filter (fun q => !q.data.draft && isSubpost q.id &&
            (getParentId q.id == p.id))).map (calculateWordCountFromPost counter)).sum)) ∧
      (m.subpostCount = 0 → m.combinedWordCount = none) := by
  have hpost : getPostById store p.id = some p := getPostById_eq_self hn hp hd
  have hperm : (getSubpostsByParent store p.id).Perm (store.blog.filter (fun q =>
      !q.data.draft && isSubpost q.id && (getParentId q.id == p.id))) :=
    List.perm_insertionSort _ _
  refine ⟨{ title := p.data.title, createdAt := p.data.createdAt, order := p.data.order,
            draft := p.data.draft, tags := p.data.tags, id := p.id,
            wordCount := calculateWordCountFromPost counter p,
            combinedWordCount :=
              if decide ((getSubpostsByParent store p.id).length > 0) = true then
                some (calculateWordCountFromPost counter p +
                  (getSubpostsByParent store p.id).foldl
                    (fun acc subpost => acc + calculateWordCountFromPost counter subpost) 0)
              else none,
            subpostCount := (getSubpostsByParent store p.id).length,
            hasSubposts := decide ((getSubpostsByParent store p.id).length > 0),
            isSubpost := false,
            authors := resolveAuthors store p.data.authors }, ?_, ?_, ?_, ?_, ?_⟩
  · simp only [getMetadata, hpost, hs]
    rw [if_neg (by simp)]
  · exact hperm.length_eq
  · rfl
  · intro hpos
    have hlen : 0 < (getSubpostsByParent store p.id).length := hpos
    show (if (decide ((getSubpostsByParent store p.id).length > 0)) = true then
        some (calculateWordCountFromPost counter p + (getSubpostsByParent store p.id).foldl
          (fun acc subpost => acc + calculateWordCountFromPost counter subpost) 0)
      else none) = _
    rw [if_pos (by simpa using hlen), foldl_add_eq_sum, (hperm.map _).sum_eq]
  · intro hzero
    have hzero' : (getSubpostsByParent store p.id).length = 0 := hzero
    have hlen : ¬ ((getSubpostsByParent store p.id).length > 0) := by omega
    show (if (decide ((getSubpostsByParent store p.id).length > 0)) = true then
        some (calculateWordCountFromPost counter p + (getSubpostsByParent store p.id).foldl
          (fun acc subpost => acc + calculateWordCountFromPost counter subpost) 0)
      else none) = none
    rw [if_neg (by simpa using hlen)]

/-- Witness for C2 at the concrete main post `"intro"` with two non-draft
subposts. -/
theorem getMetadata_mainpost_witness :
    ∃ m, getMetadata fallbackWordCount mainStore "intro" = Except.ok m ∧
      m.subpostCount = (mainStore.blog.filter (fun q =>
        !q.data.draft && isSubpost q.id && (getParentId q.id == introPost.id))).length ∧
      m.hasSubposts = decide (0 < m.subpostCount) ∧
      (0 < m.subpostCount → m.combinedWordCount =
        some (calculateWordCountFromPost fallbackWordCount introPost +
          ((mainStore.blog.filter (fun q => !q.data.draft && isSubpost q.id &&
            (getParentId q.id == introPost.id))).map
              (calculateWordCountFromPost fallbackWordCount)).sum)) ∧
      (m.subpostCount = 0 → m.combinedWordCount = none) :=
  getMetadata_mainpost fallbackWordCount mainStore introPost (by decide) (by decide) rfl rfl

/-! ### Navigation (`PostManagerImpl.getNavigation`) -/

theorem nodup_ids_subposts (store : Store) (parentId : String)
    (hn : (store.blog.map Post.id).Nodup) :
    ((getSubpostsByParent store parentId).map Post.id).Nodup := by
  have h1 : ((store.blog.filter (fun post =>
      !post.data.draft && isSubpost post.id && (getParentId post.id == parentId))).map
        Post.id).Nodup :=
    List.Nodup.sublist ((List.filter_sublist _).map Post.id) hn
  exact ((List.perm_insertionSort _ _).map Post.id).nodup_iff.mpr h1

theorem nodup_ids_mainPosts (store : Store) (hn : (store.blog.map Post.id).Nodup) :
    ((getMainPosts store none).map Post.id).Nodup := by
  have h1 : ((store.blog.filter (fun post =>
      !post.data.draft && !isSubpost post.id)).map Post.id).Nodup :=
    List.Nodup.sublist ((List.filter_sublist _).map Post.id) hn
  exact ((List.perm_insertionSort _ _).map Post.id).nodup_iff.mpr h1

/-- **C3.** For every existing non-draft subpost, `getNavigation` works on the
non-draft siblings sharing its parent id, as a list that is a permutation of
exactly those siblings sorted ascending by creation date with ties broken by
the `order` field (default 0); with the current subpost at index `i` in that
ordering, `newer` is the sibling at `i + 1` (`none` past the end), `older` the
sibling at `i - 1` (`none` at the start), and `parent` the resolved parent
post (`none` when it cannot be found). -/
theorem getNavigation_subpost (store : Store) (p : Post)
    (hn : (store.blog.map Post.id).Nodup) (hp : p ∈ store.blog)
    (hd : p.data.draft = false) (hs : isSubpost p.id = true) :
    (getSubpostsByParent store (getParentId p.id)).Perm
      (store.blog.filter (fun q =>
        !q.data.draft && isSubpost q.id && (getParentId q.id == getParentId p.id))) ∧
    List.Pairwise bySubpostOrder (getSubpostsByParent store (getParentId p.id)) ∧
    ∃ i, (getSubpostsByParent store (getParentId p.id))[i]? = some p ∧
      getNavigation store p.id =
        { newer := (getSubpostsByParent store (getParentId p.id))[i + 1]?,
          older := if i = 0 then none
            else (getSubpostsByParent store (getParentId p.id))[i - 1]?,
          parent := getPostById store (getParentId p.id) } := by
  refine ⟨List.perm_insertionSort _ _, List.sorted_insertionSort _ _, ?_⟩
  have hmem : p ∈ getSubpostsByParent store (getParentId p.id) :=
    (List.perm_insertionSort _ _).mem_iff.mpr
      (List.mem_filter.mpr ⟨hp, by simp [hd, hs]⟩)
  obtain ⟨i, hi⟩ := List.mem_iff_getElem?.mp hmem
  refine ⟨i, hi, ?_⟩
  have hidx := findIdx?_id_aux _ 0 i p (nodup_ids_subposts store (getParentId p.id) hn) hi
  rw [Nat.zero_add] at hidx
  obtain ⟨hilen, -⟩ := List.getElem?_eq_some.mp hi
  simp only [getNavigation, hs, if_true, hidx]
  rw [PostNavigation.mk.injEq]
  refine ⟨?_, ?_, rfl⟩
  · by_cases hlt : i < (getSubpostsByParent store (getParentId p.id)).length - 1
    · rw [if_pos hlt]
    · rw [if_neg hlt]
      have hge : (getSubpostsByParent store (getParentId p.id)).length ≤ i + 1 := by omega
      rw [List.getElem?_eq_none hge]
  · by_cases hi0 : i = 0
    · subst hi0
      rw [if_neg (by omega), if_pos rfl]
    · rw [if_pos (by omega), if_neg hi0]

/-- The sole subpost of `"intro"` in the sole-subpost sample store. -/
def detailsPost : Post :=
  { id := "intro/details",
    data := { title := "Details", createdAt := 11, order := none, draft := false,
              tags := [], authors := [] },
    body := "", rendered := none, headings := [⟨2, "d", "D"⟩] }

def soleStore : Store :=
  { blog := [introPost, detailsPost], authors := [] }

/-- Witness for C3 at the concrete sole subpost `"intro/details"`: the theorem
instance, plus the claim's example — a sole subpost navigates to
`{newer := none, older := none, parent := the parent post}`. -/
theorem getNavigation_subpost_witness :
    ((getSubpostsByParent soleStore (getParentId detailsPost.id)).Perm
      (soleStore.blog.filter (fun q =>
        !q.data.draft && isSubpost q.id && (getParentId q.id == getParentId detailsPost.id))) ∧
    List.Pairwise bySubpostOrder (getSubpostsByParent soleStore (getParentId detailsPost.id)) ∧
    ∃ i, (getSubpostsByParent soleStore (getParentId detailsPost.id))[i]? = some detailsPost ∧
      getNavigation soleStore detailsPost.id =
        { newer := (getSubpostsByParent soleStore (getParentId detailsPost.id))[i + 1]?,
          older := if i = 0 then none
            else (getSubpostsByParent soleStore (getParentId detailsPost.id))[i - 1]?,
          parent := getPostById soleStore (getParentId detailsPost.id) }) ∧
    getNavigation soleStore "intro/details" =
      { newer := none, older := none, parent := some introPost } :=
  ⟨getNavigation_subpost soleStore detailsPost (by decide) (by decide) rfl rfl, by decide⟩

/-- **C4.** Main-post navigation is antisymmetric: the non-draft main posts
are ordered by descending creation date, and for adjacent entries `A` (at
index `i`) and `B` (at index `i + 1`) in that ordering,
`getNavigation(A).older = B`, `getNavigation(B).newer = A`, and both parents
are `none`. -/
theorem getNavigation_main_adjacent (store : Store) (A B : Post) (i : Nat)
    (hn : (store.blog.map Post.id).Nodup)
    (hA : (getMainPosts store none)[i]? = some A)
    (hB : (getMainPosts store none)[i + 1]? = some B) :
    List.Pairwise byDateDesc (getMainPosts store none) ∧
    (getNavigation store A.id).older = some B ∧
    (getNavigation store B.id).newer = some A ∧
    (getNavigation store A.id).parent = none ∧
    (getNavigation store B.id).parent = none := by
  have hnodup := nodup_ids_mainPosts store hn
  have hmemA : A ∈ getMainPosts store none :=
    List.mem_iff_getElem?.mpr ⟨i, hA⟩
  have hmemB : B ∈ getMainPosts store none :=
    List.mem_iff_getElem?.mpr ⟨i + 1, hB⟩
  have hsA : isSubpost A.id = false := by
    have h2 := List.of_mem_filter ((List.perm_insertionSort _ _).mem_iff.mp hmemA)
    simp only [Bool.and_eq_true, Bool.not_eq_true'] at h2
    exact h2.2
  have hsB : isSubpost B.id = false := by
    have h2 := List.of_mem_filter ((List.perm_insertionSort _ _).mem_iff.mp hmemB)
    simp only [Bool.and_eq_true, Bool.not_eq_true'] at h2
    exact h2.2
  have hidxA := findIdx?_id_aux _ 0 i A hnodup hA
  rw [Nat.zero_add] at hidxA
  have hidxB := findIdx?_id_aux _ 0 (i + 1) B hnodup hB
  rw [Nat.zero_add] at hidxB
  obtain ⟨hlenB, -⟩ := List.getElem?_eq_some.mp hB
  have hnavA : getNavigation store A.id =
      { newer := if 0 < i then (getMainPosts store none)[i - 1]? else none,
        older := if i < (getMainPosts store none).length - 1 then
          (getMainPosts store none)[i + 1]? else none,
        parent := none } := by
    simp [getNavigation, hsA, hidxA]
  have hnavB : getNavigation store B.id =
      { newer := if 0 < i + 1 then (getMainPosts store none)[i + 1 - 1]? else none,
        older := if i + 1 < (getMainPosts store none).length - 1 then
          (getMainPosts store none)[i + 1 + 1]? else none,
        parent := none } := by
    simp [getNavigation, hsB, hidxB]
  refine ⟨List.sorted_insertionSort _ _, ?_, ?_, ?_, ?_⟩
  · rw [hnavA]
    show (if i < (getMainPosts store none).length - 1 then
      (getMainPosts store none)[i + 1]? else none) = some B
    rw [if_pos (by omega)]
    exact hB
  · rw [hnavB]
    show (if 0 < i + 1 then (getMainPosts store none)[i + 1 - 1]? else none) = some A
    rw [if_pos (Nat.succ_pos i)]
    simpa using hA
  · rw [hnavA]
  · rw [hnavB]

/-- Witness for C4: in the sample store the main-post ordering is
`["intro" (newest), "older-post"]`; the theorem instance at `i = 0`. -/
theorem getNavigation_main_adjacent_witness :
    List.Pairwise byDateDesc (getMainPosts mainStore none) ∧
    (getNavigation mainStore introPost.id).older = some olderPost ∧
    (getNavigation mainStore olderPost.id).newer = some introPost ∧
    (getNavigation mainStore introPost.id).parent = none ∧
    (getNavigation mainStore olderPost.id).parent = none :=
  getNavigation_main_adjacent mainStore introPost olderPost 0 (by decide)
    (by decide) (by decide)

/-! ## Table-of-contents builder

Two implementations coexist in the repository: the consolidated standalone
`getTOCSections` (the one `PostManagerImpl.getTOCSections` dynamically
imports from `./toc`, emitting `{postId, postTitle, isSubpost, headings}`
sections) and the legacy `TOCManager` class (version 2.0.0, emitting
`{type, title, headings, subpostId}` sections via `createParentSection` /
`createSubpostSection`).  Both are embedded; the legacy class's `WeakRef`
cache only memoises the pure computation and is omitted. -/

/-- A heading of the consolidated TOC: a markdown heading plus the generated
`href` fragment link. -/
structure THeading where
  depth : Nat
  slug : String
  text : String
  href : String
deriving DecidableEq

structure TOCSection where
  postId : String
  postTitle : String
  isSubpost : Bool
  headings : List THeading
deriving DecidableEq

/-- `extractAndProcessHeadings(post, tocMaxDepth)`: the rendered headings,
filtered to `depth <= tocMaxDepth`, each given `href = "#" + slug`. -/
def extractAndProcessHeadings (post : Post) (tocMaxDepth : Int) : List THeading :=
  (post.headings.filter (fun h => (h.depth : Int) ≤ tocMaxDepth)).map
    (fun h => { depth := h.depth, slug := h.slug, text := h.text, href := "#" ++ h.slug })

/-- The consolidated standalone `getTOCSections(postId, postManager,
tocMaxDepth)` of `toc.ts` (v3): parent section (the parent post's own title)
when it has qualifying headings, then one section per heading-bearing subpost
in display order. -/
def getTOCSections (store : Store) (postId : String) (tocMaxDepth : Int) : List TOCSection :=
  if tocMaxDepth ≤ 0 then []
  else
    match getPostById store postId with
    | none => []
    | some post =>
      let isSub := isSubpost postId
      let parentId := if isSub then getParentId postId else postId
      match (if isSub then getPostById store parentId else some post) with
      | none => []
      | some parentPost =>
        let parentHeadings := extractAndProcessHeadings parentPost tocMaxDepth
        let subposts := getSubpostsByParent store parentId
        if parentHeadings.isEmpty && subposts.isEmpty then []
        else
          let subpostSections := subposts.filterMap (fun subpost =>
            if (extractAndProcessHeadings subpost tocMaxDepth).isEmpty then none
            else some { postId := subpost.id, postTitle := subpost.data.title,
                        isSubpost := true,
                        headings := extractAndProcessHeadings subpost tocMaxDepth })
          (if parentHeadings.isEmpty then []
           else [{ postId := parentId, postTitle := parentPost.data.title,
                   isSubpost := false, headings := parentHeadings }]) ++ subpostSections

/-- A section of the legacy `TOCManager` (v2): tagged `"parent"`/`"subpost"`,
with a display `title` and, for subposts, the subpost id. -/
structure TOCSectionV2 where
  type : String
  title : String
  headings : List MarkdownHeading
  subpostId : Option String
deriving DecidableEq

/-- `TOCManager.createParentSection`: the fixed label `"Overview"`. -/
def createParentSection (headings : List MarkdownHeading) : TOCSectionV2 :=
  { type := "parent", title := "Overview", headings := headings, subpostId := none }

/-- `TOCManager.createSubpostSection`: the subpost's own title. -/
def createSubpostSection (subpost : Post) (headings : List MarkdownHeading) : TOCSectionV2 :=
  { type := "subpost", title := subpost.data.title, headings := headings,
    subpostId := some subpost.id }

/-- `TOCManager.filterHeadingsByDepth`. -/
def filterHeadingsByDepth (headings : List MarkdownHeading) (tocMaxDepth : Int) :
    List MarkdownHeading :=
  headings.filter (fun h => (h.depth : Int) ≤ tocMaxDepth)

/-- The legacy `TOCManager.getTOCSections` (cache omitted). -/
def tocManagerGetTOCSections (store : Store) (postId : String) (tocMaxDepth : Int) :
    List TOCSectionV2 :=
  match getPostById store postId with
  | none => []
  | some post =>
    let isSub := isSubpost postId
    let parentId := if isSub then getParentId postId else postId
    match (if isSub then getPostById store parentId else some post) with
    | none => []
    | some parentPost =>
      let parentHeadings := filterHeadingsByDepth parentPost.headings tocMaxDepth
      let subposts := getSubpostsByParent store parentId
      (if parentHeadings.isEmpty then [] else [createParentSection parentHeadings]) ++
        subposts.filterMap (fun subpost =>
          if (filterHeadingsByDepth subpost.headings tocMaxDepth).isEmpty then none
          else some (createSubpostSection subpost
            (filterHeadingsByDepth subpost.headings tocMaxDepth)))

/-- **C5.** For every non-draft main post, `getTOCSections` returns the
parent post's section first — present exactly when the parent has at least
one heading with `depth ≤ maxDepth` — followed by exactly one section per
heading-bearing subpost, in the subposts' ascending date-then-order display
sequence, omitting heading-less subposts entirely. -/
theorem getTOCSections_structure (store : Store) (p : Post) (d : Int)
    (hn : (store.blog.map Post.id).Nodup) (hp : p ∈ store.blog)
    (hd : p.data.draft = false) (hs : isSubpost p.id = false) (hdep : 0 < d) :
    getTOCSections store p.id d =
      (if (extractAndProcessHeadings p d).isEmpty then []
       else [{ postId := p.id, postTitle := p.data.title, isSubpost := false,
               headings := extractAndProcessHeadings p d }]) ++
      (getSubpostsByParent store p.id).filterMap (fun subpost =>
        if (extractAndProcessHeadings subpost d).isEmpty then none
        else some { postId := subpost.id, postTitle := subpost.data.title,
                    isSubpost := true,
                    headings := extractAndProcessHeadings subpost d }) := by
  have hpost : getPostById store p.id = some p := getPostById_eq_self hn hp hd
  unfold getTOCSections
  rw [if_neg (by omega), hpost]
  simp only [hs, Bool.false_eq_true, if_false]
  by_cases hempty :
      (extractAndProcessHeadings p d).isEmpty && (getSubpostsByParent store p.id).isEmpty
  · rw [if_pos hempty]
    rw [Bool.and_eq_true] at hempty
    rw [if_pos hempty.1, List.isEmpty_iff.mp hempty.2]
    simp
  · rw [if_neg hempty]

/-- Witness for C5: in the sample store, `"intro"` (with a heading) has two
subposts, `"intro/one"` (with a heading) and `"intro/two"` (without); the
theorem instance, plus the claim's example — exactly two sections, the
parent's first, the heading-less subpost omitted. -/
theorem getTOCSections_structure_witness :
    (getTOCSections mainStore "intro" 6 =
      (if (extractAndProcessHeadings introPost 6).isEmpty then []
       else [{ postId := introPost.id, postTitle := introPost.data.title, isSubpost := false,
               headings := extractAndProcessHeadings introPost 6 }]) ++
      (getSubpostsByParent mainStore introPost.id).filterMap (fun subpost =>
        if (extractAndProcessHeadings subpost 6).isEmpty then none
        else some { postId := subpost.id, postTitle := subpost.data.title,
                    isSubpost := true,
                    headings := extractAndProcessHeadings subpost 6 })) ∧
    getTOCSections mainStore "intro" 6 =
      [{ postId := "intro", postTitle := "Intro Title", isSubpost := false,
         headings := [{ depth := 2, slug := "a", text := "A", href := "#a" }] },
       { postId := "intro/one", postTitle := "One", isSubpost := true,
         headings := [{ depth := 2, slug := "c", text := "C", href := "#c" }] }] :=
  ⟨getTOCSections_structure mainStore introPost 6 (by decide) (by decide) rfl rfl
    (by decide), by decide⟩

/-- **C6 (counterexample).** In the consolidated `getTOCSections` actually
used by the `PostManager`, the first (parent) section carries the parent
post's own title, not the fixed label `"Overview"`: for the sample post
titled `"Intro Title"` the first section's title is `"Intro Title"`. -/
theorem getTOCSections_overview_counterexample :
    ((getTOCSections mainStore "intro" 6).map TOCSection.postTitle).head? =
      some "Intro Title" ∧ ("Intro Title" : String) ≠ "Overview" :=
  ⟨by decide, by decide⟩

theorem toc_v2_title_of_mem {store : Store} {d : Int} {parentPost : Post}
    {parentId : String} {s : TOCSectionV2}
    (hmem : s ∈ (if (filterHeadingsByDepth parentPost.headings d).isEmpty then []
        else [createParentSection (filterHeadingsByDepth parentPost.headings d)]) ++
      (getSubpostsByParent store parentId).filterMap (fun subpost =>
        if (filterHeadingsByDepth subpost.headings d).isEmpty then none
        else some (createSubpostSection subpost (filterHeadingsByDepth subpost.headings d))))
    (htype : s.type = "parent") : s.title = "Overview" := by
  rcases List.mem_append.mp hmem with hbase | hsub
  · by_cases hpe : (filterHeadingsByDepth parentPost.headings d).isEmpty
    · rw [if_pos hpe] at hbase
      exact absurd hbase (by simp)
    · rw [if_neg hpe] at hbase
      have hbe : s = createParentSection (filterHeadingsByDepth parentPost.headings d) := by
        simpa using hbase
      rw [hbe]
      rfl
  · obtain ⟨subpost, -, hval⟩ := List.mem_filterMap.mp hsub
    by_cases hse : (filterHeadingsByDepth subpost.headings d).isEmpty
    · rw [if_pos hse] at hval
      exact absurd hval (by simp)
    · rw [if_neg hse] at hval
      have hval' : createSubpostSection subpost
          (filterHeadingsByDepth subpost.headings d) = s := by
        simpa using hval
      rw [← hval'] at htype
      exact absurd htype (by simp [createSubpostSection])

/-- **C6 (amended).** In the legacy `TOCManager.getTOCSections`, every
parent-type section carries the fixed label `"Overview"` as its title; the
consolidated `getTOCSections` used by the `PostManager` instead gives the
parent section the parent post's own title (e.g. `"Intro Title"` for the
sample store's `"intro"`). -/
theorem tocManager_parent_title_overview :
    (∀ (store : Store) (postId : String) (d : Int) (s : TOCSectionV2),
        s ∈ tocManagerGetTOCSections store postId d → s.type = "parent" →
        s.title = "Overview") ∧
    ((getTOCSections mainStore "intro" 6).map TOCSection.postTitle).head? =
      some "Intro Title" := by
  constructor
  · intro store postId d s hmem htype
    unfold tocManagerGetTOCSections at hmem
    cases hpost : getPostById store postId with
    | none => rw [hpost] at hmem; exact absurd hmem (by simp)
    | some post =>
      rw [hpost] at hmem
      simp only at hmem
      cases hparent : (if isSubpost postId = true then
          getPostById store (if isSubpost postId = true then getParentId postId else postId)
          else some post) with
      | none => rw [hparent] at hmem; exact absurd hmem (by simp)
      | some parentPost =>
        rw [hparent] at hmem
        simp only at hmem
        exact toc_v2_title_of_mem hmem htype
  · decide

/-- Witness for C6 at a concrete parent section of the legacy `TOCManager`
output for the sample store. -/
theorem tocManager_parent_title_overview_witness :
    TOCSectionV2.title
      { type := "parent", title := "Overview",
        headings := [{ depth := 2, slug := "a", text := "A" }], subpostId := none } =
      "Overview" :=
  tocManager_parent_title_overview.1 mainStore "intro" 6
    { type := "parent", title := "Overview",
      headings := [{ depth := 2, slug := "a", text := "A" }], subpostId := none }
    (by decide) rfl

/-! ## Scroll / active-heading tracker
(`src/lib/blog/scroll.ts`, `UnifiedTOCController`)

The DOM is modelled by the list of heading elements the controller queries
(id, tag depth, `offsetTop`) and the document height
(`document.body.scrollHeight`); `window.scrollY`, the header offset and
`window.innerHeight` are the scroll inputs. -/

/-- A heading element from the `.prose h2…h6` query: its `id`, its depth
(from the tag name) and its `offsetTop`. -/
structure HeadingElem where
  id : String
  depth : Nat
  offsetTop : Int
deriving DecidableEq

/-- `HeadingRegion` of `types.ts`; the source's `end` field is `stop` here
(`end` is a Lean keyword). -/
structure HeadingRegion where
  id : String
  start : Int
  stop : Int
deriving DecidableEq

/-- The per-heading step of `buildHeadingRegions`: region `i` runs from
heading `i`'s `offsetTop` to heading `i+1`'s `offsetTop`, the last to
`document.body.scrollHeight`. -/
def regionsOf (scrollHeight : Int) : List HeadingElem → List HeadingRegion
  | [] => []
  | [h] => [{ id := h.id, start := h.offsetTop, stop := scrollHeight }]
  | h :: h' :: rest =>
    { id := h.id, start := h.offsetTop, stop := h'.offsetTop } ::
      regionsOf scrollHeight (h' :: rest)

/-- `buildHeadingRegions`: filter the queried headings to
`depth <= tocMaxDepth`, then build the region list (empty when no headings
qualify). -/
def buildHeadingRegions (tocMaxDepth : Nat) (allHeadings : List HeadingElem)
    (scrollHeight : Int) : List HeadingRegion :=
  regionsOf scrollHeight (allHeadings.filter (fun h => h.depth ≤ tocMaxDepth))

/-- `Array.from(new Set(xs))`: first occurrences, in insertion order. -/
def setFromListAux (seen : List String) : List String → List String
  | [] => []
  | x :: xs =>
    if seen.contains x then setFromListAux seen xs
    else x :: setFromListAux (x :: seen) xs

def setFromList (xs : List String) : List String :=
  setFromListAux [] xs

/-- `getVisibleHeadingIds`: a region is visible when
`region.start <= viewportBottom && region.end >= viewportTop` for the window
`[scrollY + headerOffset, scrollY + innerHeight]`. -/
def getVisibleHeadingIds (regions : List HeadingRegion) (scrollY headerOffset innerHeight : Int) :
    List String :=
  if regions.isEmpty then []
  else
    let viewportTop := scrollY + headerOffset
    let viewportBottom := scrollY + innerHeight
    setFromList ((regions.filter (fun region =>
      decide (region.start ≤ viewportBottom) && decide (viewportTop ≤ region.stop))).map
        (fun region => region.id))

theorem mem_setFromListAux {x : String} :
    ∀ {xs : List String} {seen : List String},
      x ∈ setFromListAux seen xs ↔ x ∈ xs ∧ ¬ seen.contains x := by
  intro xs
  induction xs with
  | nil => intro seen; simp [setFromListAux]
  | cons y ys ih =>
    intro seen
    by_cases hy : seen.contains y
    · rw [setFromListAux, if_pos hy]
      rw [ih]
      constructor
      · rintro ⟨hmem, hseen⟩
        exact ⟨List.mem_cons_of_mem y hmem, hseen⟩
      · rintro ⟨hmem, hseen⟩
        rcases List.mem_cons.mp hmem with hEq | hmem'
        · subst hEq; exact absurd hy hseen
        · exact ⟨hmem', hseen⟩
    · rw [setFromListAux, if_neg hy]
      constructor
      · intro hmem
        rcases List.mem_cons.mp hmem with hEq | hmem'
        · subst hEq; exact ⟨List.mem_cons_self x ys, hy⟩
        · obtain ⟨hmem'', hseen⟩ := ih.mp hmem'
          refine ⟨List.mem_cons_of_mem y hmem'', fun hc => hseen ?_⟩
          exact List.elem_iff.mpr (List.mem_cons_of_mem y (List.elem_iff.mp hc))
      · rintro ⟨hmem, hseen⟩
        by_cases hxy : x = y
        · subst hxy; exact List.mem_cons_self x _
        · rcases List.mem_cons.mp hmem with hEq | hmem'
          · exact absurd hEq hxy
          · refine List.mem_cons_of_mem y (ih.mpr ⟨hmem', fun hc => ?_⟩)
            rcases List.mem_cons.mp (List.elem_iff.mp hc) with hEq | hx'
            · exact hxy hEq
            · exact hseen (List.elem_iff.mpr hx')

theorem mem_setFromList {x : String} {xs : List String} :
    x ∈ setFromList xs ↔ x ∈ xs := by
  rw [setFromList, mem_setFromListAux]
  simp

/-- **C9.** In the tracking state a heading id is in the visible set exactly
when its region — from its top offset to the next heading's top offset, or
to document end for the last — intersects the viewport window
`[scrollY + headerOffset, scrollY + viewportHeight]`; in the concrete
scenario (headings at offsets 100 and 800, document 2000px, viewport 600,
header offset 80), `scrollY = 0` marks only the first heading active and
`scrollY = 750` only the second. -/
theorem getVisibleHeadingIds_intersect :
    (∀ (d : Nat) (elems : List HeadingElem) (scrollHeight y hOff vh : Int),
      (∀ r ∈ buildHeadingRegions d elems scrollHeight, r.start ≤ r.stop) → hOff ≤ vh →
      ∀ hid, hid ∈ getVisibleHeadingIds (buildHeadingRegions d elems scrollHeight) y hOff vh ↔
        ∃ r ∈ buildHeadingRegions d elems scrollHeight, r.id = hid ∧
          ∃ x : Int, r.start ≤ x ∧ x ≤ r.stop ∧ y + hOff ≤ x ∧ x ≤ y + vh) ∧
    getVisibleHeadingIds
      (buildHeadingRegions 6 [⟨"h-first", 2, 100⟩, ⟨"h-second", 2, 800⟩] 2000) 0 80 600 =
        ["h-first"] ∧
    getVisibleHeadingIds
      (buildHeadingRegions 6 [⟨"h-first", 2, 100⟩, ⟨"h-second", 2, 800⟩] 2000) 750 80 600 =
        ["h-second"] := by
  refine ⟨?_, by decide, by decide⟩
  intro d elems scrollHeight y hOff vh hwf hov hid
  unfold getVisibleHeadingIds
  by_cases hemp : (buildHeadingRegions d elems scrollHeight).isEmpty
  · rw [if_pos hemp]
    rw [List.isEmpty_iff.mp hemp]
    simp
  · rw [if_neg hemp]
    rw [mem_setFromList, List.mem_map]
    constructor
    · rintro ⟨r, hr, hrid⟩
      obtain ⟨hrmem, hcond⟩ := List.mem_filter.mp hr
      simp only [Bool.and_eq_true, decide_eq_true_eq] at hcond
      refine ⟨r, hrmem, hrid, max r.start (y + hOff), le_max_left _ _, ?_, le_max_right _ _, ?_⟩
      · exact max_le (hwf r hrmem) hcond.2
      · exact max_le hcond.1 (by omega)
    · rintro ⟨r, hrmem, hrid, x, hx1, hx2, hx3, hx4⟩
      refine ⟨r, List.mem_filter.mpr ⟨hrmem, ?_⟩, hrid⟩
      simp only [Bool.and_eq_true, decide_eq_true_eq]
      exact ⟨by omega, by omega⟩

/-- Witness for C9: the general intersection rule instantiated at the claim's
concrete scenario (`scrollY = 750`), where only `"h-second"` is visible. -/
theorem getVisibleHeadingIds_intersect_witness :
    "h-second" ∈ getVisibleHeadingIds
        (buildHeadingRegions 6 [⟨"h-first", 2, 100⟩, ⟨"h-second", 2, 800⟩] 2000) 750 80 600 ↔
      ∃ r ∈ buildHeadingRegions 6 [⟨"h-first", 2, 100⟩, ⟨"h-second", 2, 800⟩] 2000,
        r.id = "h-second" ∧
        ∃ x : Int, r.start ≤ x ∧ x ≤ r.stop ∧ 750 + 80 ≤ x ∧ x ≤ 750 + 600 :=
  getVisibleHeadingIds_intersect.1 6 [⟨"h-first", 2, 100⟩, ⟨"h-second", 2, 800⟩] 2000
    750 80 600 (by decide) (by decide) "h-second"

end Blog
